import Mathlib

/-!
Verification of the core data pipeline of the AI/CS Entry-Level & Internship
Finder repository: the job-record normalizer (`src/scraper.py`), the keyword
classifier (`src/job_tagger.py`), the remote/on-site filters (`src/app.py`,
`src/utils.py`), the email digest (`src/email_service.py`) and the filename
sanitizer (`src/utils.py`), shallowly embedded in Lean.

Strings are modelled as Lean `String`s (lists of characters); pandas
DataFrames are modelled as `List JobRecord` (one element per row, in row
order); boolean masks become `List.filter`.  Calls into the Python `datetime`
library and the SMTP stack are abstracted as function parameters, since that
code is not part of the repository.
-/

/-! ## Character and string utilities shared by the embedding -/

/-- Python's `\s` character class (the whitespace characters recognised by
`str.strip()` and the regex `\s`): space, tab, newline, carriage return,
form feed, vertical tab. -/
def isPySpace (c : Char) : Bool :=
  c = ' ' || c = '\t' || c = '\n' || c = '\x0d' || c = '\x0c' || c = '\x0b'

/-- Worker for `subRuns`: `inRun` records whether the previous character was
part of a run of characters satisfying `p` (in which case further `p`
characters are absorbed into the already-emitted replacement). -/
def subRunsGo (p : Char → Bool) (rep : Char) : Bool → List Char → List Char
  | _, [] => []
  | inRun, c :: rest =>
    if p c then
      if inRun then subRunsGo p rep true rest
      else rep :: subRunsGo p rep true rest
    else c :: subRunsGo p rep false rest

/-- Replace every maximal run of characters satisfying `p` by the single
character `rep`; models Python's `re.sub(r'X+', rep, s)` for a character
class `X`. -/
def subRuns (p : Char → Bool) (rep : Char) (l : List Char) : List Char :=
  subRunsGo p rep false l

/-- Drop characters satisfying `p` from both ends; models Python's
`str.strip` family. -/
def stripEnds (p : Char → Bool) (l : List Char) : List Char :=
  ((l.dropWhile p).reverse.dropWhile p).reverse

/-- Python `str.strip()` (no argument): remove leading/trailing whitespace. -/
def pyStrip (s : String) : String := ⟨stripEnds isPySpace s.toList⟩

/-- The per-column cleanup of `clean_job_data` in `src/scraper.py`:
`col.str.replace(r'\s+', ' ', regex=True).str.strip()`. -/
def cleanField (s : String) : String :=
  ⟨stripEnds isPySpace (subRuns isPySpace ' ' s.toList)⟩

/-- Is `pat` a prefix of `hay`? (plain character-list comparison). -/
def listStartsWith : List Char → List Char → Bool
  | [], _ => true
  | _ :: _, [] => false
  | p :: ps, h :: hs => (p = h) && listStartsWith ps hs

/-- Does `hay` contain `pat` as a contiguous substring?  Models Python's
`pat in hay` on strings and the fixed-string fragment of
`Series.str.contains`. -/
def hasSubstr (pat : List Char) : List Char → Bool
  | [] => pat.isEmpty
  | h :: t => listStartsWith pat (h :: t) || hasSubstr pat t

/-- Python's `str.lower()` restricted to its ASCII action (all strings the
claims touch are ASCII): lower-case every character. -/
def strLower (s : String) : String := ⟨s.toList.map Char.toLower⟩

/-- Case-insensitive substring test (`Series.str.contains(pat, case=False)`
for a literal pattern, or `pat.lower() in hay.lower()`). -/
def containsCI (hay pat : String) : Bool :=
  hasSubstr (strLower pat).toList (strLower hay).toList

/-- Case-sensitive substring test (Python's `pat in hay`). -/
def containsCS (hay pat : String) : Bool :=
  hasSubstr pat.toList hay.toList

/-! ## The canonical job record

One row of the jobs DataFrame produced by `extract_job_data_from_api` in
`src/scraper.py` (columns `Job Title`, `Company`, `Location`, `Description`,
`Apply Link`, `Job Type`, `Posting Date`). -/

structure JobRecord where
  title : String
  company : String
  location : String
  description : String
  applyLink : String
  jobType : String
  postingDate : String
deriving DecidableEq, Repr

/-! ## Remote / on-site filters (`src/app.py`) and the remote badge
(`src/utils.py`) -/

/-- The mask of `filter_remote_jobs` in `src/app.py`: the regex
`'remote|Remote|REMOTE'` with `case=False` is a case-insensitive test for the
single literal `"remote"`, applied to Location, Job Type and Job Title. -/
def remoteMaskApp (r : JobRecord) : Bool :=
  containsCI r.location "remote" || containsCI r.jobType "remote" ||
    containsCI r.title "remote"

/-- `filter_remote_jobs` from `src/app.py` (`df[remote_mask].reset_index`). -/
def filter_remote_jobs (l : List JobRecord) : List JobRecord :=
  l.filter remoteMaskApp

/-- The "On-site Only" branch of `src/app.py` (lines 552-561): it computes the
same remote mask as `filter_remote_jobs` and keeps the complement
(`combined_df[~remote_mask].reset_index`). -/
def filter_onsite_jobs (l : List JobRecord) : List JobRecord :=
  l.filter (fun r => !remoteMaskApp r)

/-- The `remote_keywords` list of `highlight_remote_jobs` in `src/utils.py`. -/
def remote_keywords : List String :=
  ["remote", "Remote", "REMOTE",
   "work from home", "Work from Home", "WFH",
   "telecommute", "Telecommute",
   "virtual", "Virtual",
   "anywhere", "Anywhere"]

/-- One `Series.str.contains(pattern, case=False)` call of
`highlight_remote_jobs`, where `pattern` is the alternation of
`remote_keywords`. -/
def matchesRemotePattern (s : String) : Bool :=
  remote_keywords.any (fun k => containsCI s k)

/-- The boolean `Remote Job` column derived by `highlight_remote_jobs` in
`src/utils.py` (this is the `isRemote` derivation of the specification): the
keyword pattern tested against Location, Job Title and Description. -/
def highlightRemoteFlag (r : JobRecord) : Bool :=
  matchesRemotePattern r.location || matchesRemotePattern r.title ||
    matchesRemotePattern r.description

/-- The remote rule exactly as the specification words it, for comparison
with the code: some keyword from {"remote", "work from home", "wfh",
"telecommute", "virtual", "anywhere"} occurs case-insensitively in the
record's location, job type, or title field. -/
def specRemoteRule (r : JobRecord) : Bool :=
  ["remote", "work from home", "wfh", "telecommute", "virtual", "anywhere"].any
    (fun k => containsCI r.location k || containsCI r.jobType k || containsCI r.title k)

/-- A record whose location says "Work From Home" but never literally
"remote". -/
def recWFH : JobRecord :=
  { title := "Data Analyst", company := "Acme", location := "Work From Home",
    description := "Analyze data", applyLink := "", jobType := "Full-Time",
    postingDate := "2025-01-01" }

/-- A record that is remote per the app filter (Job Type says Remote) but not
per the badge rule (which never looks at the job type field). -/
def recTypeRemote : JobRecord :=
  { title := "Data Analyst", company := "Acme", location := "Austin, TX",
    description := "Analyze data", applyLink := "", jobType := "Full-Time, Remote",
    postingDate := "2025-01-01" }

/-- C2, counterexample: `recWFH`'s location matches the spec's remote-keyword
rule ("work from home"), and the badge derivation marks it remote, yet the
remote filter of `src/app.py` (which only ever looks for the literal
`"remote"`) rejects it. -/
theorem C2_filter_keywords_counterexample :
    specRemoteRule recWFH = true ∧ highlightRemoteFlag recWFH = true ∧
    remoteMaskApp recWFH = false ∧ filter_remote_jobs [recWFH] = [] := by
  refine ⟨by decide, by decide, by decide, by decide⟩

/-- C2, amended: the remote filter and the on-site mask of `src/app.py` test
only the single keyword `"remote"` (case-insensitively) against location, job
type and title, and on-site is the strict complement of that rule; the
`isRemote` badge of `src/utils.py` uses the full keyword set against
location, title and description, which is a genuinely different rule — it
disagrees with the filter in both directions. -/
theorem C2_filter_keywords_amended :
    (∀ r : JobRecord, remoteMaskApp r =
        (containsCI r.location "remote" || containsCI r.jobType "remote" ||
          containsCI r.title "remote"))
  ∧ (∀ l : List JobRecord,
        filter_remote_jobs l = l.filter remoteMaskApp ∧
        filter_onsite_jobs l = l.filter (fun r => !remoteMaskApp r))
  ∧ (∃ r, highlightRemoteFlag r = true ∧ remoteMaskApp r = false)
  ∧ (∃ r, remoteMaskApp r = true ∧ highlightRemoteFlag r = false) :=
  ⟨fun _ => rfl, fun _ => ⟨rfl, rfl⟩,
   ⟨recWFH, by decide, by decide⟩,
   ⟨recTypeRemote, by decide, by decide⟩⟩

/-- C7: for every batch, the remote-only filter and the on-site-only filter
partition the batch exactly — every element of the batch lies in exactly one
of the two outputs, and multiplicities add up. -/
theorem C7_remote_onsite_partition (l : List JobRecord) (r : JobRecord) :
    (r ∈ l ↔ (r ∈ filter_remote_jobs l ∨ r ∈ filter_onsite_jobs l))
  ∧ ¬(r ∈ filter_remote_jobs l ∧ r ∈ filter_onsite_jobs l)
  ∧ (filter_remote_jobs l).count r + (filter_onsite_jobs l).count r = l.count r := by
  refine ⟨?_, ?_, ?_⟩
  · constructor
    · intro hr
      cases h : remoteMaskApp r with
      | true => exact Or.inl (List.mem_filter.mpr ⟨hr, h⟩)
      | false => exact Or.inr (List.mem_filter.mpr ⟨hr, by simp [h]⟩)
    · rintro (h | h) <;> exact (List.mem_filter.mp h).1
  · rintro ⟨h1, h2⟩
    have m1 := (List.mem_filter.mp h1).2
    have m2 := (List.mem_filter.mp h2).2
    simp [m1] at m2
  · induction l with
    | nil => rfl
    | cons a t ih =>
      simp only [filter_remote_jobs, filter_onsite_jobs, List.filter] at *
      cases ha : remoteMaskApp a <;>
        simp only [Bool.not_true, Bool.not_false, List.count_cons] <;>
        omega

/-! ## Posting-date formatting (`format_posting_date` in `src/scraper.py`) -/

/-- A JSON value found under one of the date-field aliases
(`job_posted_at_datetime_utc`, `job_posted_at_timestamp`, `job_posted_at`):
a string, a number, or absent. -/
inductive JsonDateVal where
  | str (s : String)
  | num (n : Int)
  | absent
deriving DecidableEq, Repr

/-- A calendar date as produced by the `datetime` library. -/
structure PyDate where
  year : Nat
  month : Nat
  day : Nat
deriving DecidableEq, Repr

/-- Zero-pad a numeral to two digits (`strftime` field behaviour). -/
def pad2 (n : Nat) : String := if n < 10 then "0" ++ toString n else toString n

/-- Zero-pad a numeral to four digits (`strftime`'s `%Y`). -/
def pad4 (n : Nat) : String :=
  if n < 10 then "000" ++ toString n
  else if n < 100 then "00" ++ toString n
  else if n < 1000 then "0" ++ toString n
  else toString n

/-- `parsed_date.strftime('%Y-%m-%d')`. -/
def fmtYMD (d : PyDate) : String :=
  pad4 d.year ++ "-" ++ pad2 d.month ++ "-" ++ pad2 d.day

/-- Python truthiness of a date value, as used by `if job_json.get(field):`
(absent key, empty string and the number 0 are falsy). -/
def truthyDate : JsonDateVal → Bool
  | .str s => s != ""
  | .num n => n != 0
  | .absent => false

/-- `format_posting_date` from `src/scraper.py`, over the list of values found
under the three date-field aliases in their fixed order.  The external
`datetime` calls are abstracted as parameters: `parseIso` models
`datetime.datetime.fromisoformat` applied after the `'Z' → '+00:00'`
substitution (`none` means the call raises), and `fromTimestamp` models
`datetime.datetime.fromtimestamp` (`none` means the call raises).  Faithful
to the source: a string that fails to parse is returned verbatim (the inner
`except: return date_value`), a number that fails to convert falls through to
the next alias (`except: continue`), and exhausting the aliases yields the
sentinel. -/
def format_posting_date (parseIso : String → Option PyDate)
    (fromTimestamp : Int → Option PyDate) : List JsonDateVal → String
  | [] => "Not available"
  | v :: rest =>
    if truthyDate v then
      match v with
      | .str s =>
        match parseIso s with
        | some d => fmtYMD d
        | none => s
      | .num n =>
        match fromTimestamp n with
        | some d => fmtYMD d
        | none => format_posting_date parseIso fromTimestamp rest
      | .absent => format_posting_date parseIso fromTimestamp rest
    else format_posting_date parseIso fromTimestamp rest

/-- A date value the formatter skips over: absent, falsy, or a number whose
timestamp conversion raises. -/
def skippableDate (fromTimestamp : Int → Option PyDate) : JsonDateVal → Bool
  | .str s => s == ""
  | .num n => n == 0 || (fromTimestamp n).isNone
  | .absent => true

/-- The corrected specification of `format_posting_date`, written from its
observed behaviour: the result is decided by the first non-skippable alias
value — a string parses to `YYYY-MM-DD` or is returned verbatim, a number
converts to `YYYY-MM-DD`; if every alias is skippable the sentinel
"Not available" is returned. -/
def formatPostingDateSpec (parseIso : String → Option PyDate)
    (fromTimestamp : Int → Option PyDate) (fields : List JsonDateVal) : String :=
  match fields.find? (fun v => !skippableDate fromTimestamp v) with
  | none => "Not available"
  | some (.str s) =>
    match parseIso s with
    | some d => fmtYMD d
    | none => s
  | some (.num n) =>
    match fromTimestamp n with
    | some d => fmtYMD d
    | none => "Not available"
  | some .absent => "Not available"

/-- C1, counterexample: a malformed ISO string (every parse attempt fails on
it) is returned verbatim by `format_posting_date`, not mapped to the sentinel
"Not available" as the claim requires. -/
theorem C1_posting_date_counterexample :
    format_posting_date (fun _ => none) (fun _ => none) [JsonDateVal.str "not-a-date"]
      = "not-a-date"
    ∧ "not-a-date" ≠ "Not available" := by
  exact ⟨rfl, by decide⟩

/-- C1, amended: for every abstract `datetime` behaviour and every list of
alias values, the formatter never raises (it is total) and equals the
corrected specification: the first truthy alias value decides the result —
an ISO-parsable string or a convertible number is normalised to
`YYYY-MM-DD`, a non-empty string that fails to parse is returned verbatim,
and only when every alias is absent, falsy, or a failing number does the
formatter return the sentinel "Not available". -/
theorem C1_posting_date_amended (parseIso : String → Option PyDate)
    (fromTimestamp : Int → Option PyDate) (fields : List JsonDateVal) :
    format_posting_date parseIso fromTimestamp fields =
      formatPostingDateSpec parseIso fromTimestamp fields := by
  induction fields with
  | nil => rfl
  | cons v rest ih =>
    cases v with
    | str s =>
      by_cases hs : s = ""
      · subst hs
        simpa [format_posting_date, formatPostingDateSpec, truthyDate,
          skippableDate, List.find?] using ih
      · have hb : (s == "") = false := beq_eq_false_iff_ne.mpr hs
        simp [format_posting_date, formatPostingDateSpec, truthyDate,
          skippableDate, List.find?, hb]
        exact fun h => absurd h hs
    | num n =>
      by_cases hn : n = 0
      · subst hn
        simpa [format_posting_date, formatPostingDateSpec, truthyDate,
          skippableDate, List.find?] using ih
      · cases hf : fromTimestamp n with
        | none =>
          simpa [format_posting_date, formatPostingDateSpec, truthyDate,
            skippableDate, List.find?, hn, hf] using ih
        | some d =>
          have hb : (n == 0) = false := beq_eq_false_iff_ne.mpr hn
          simp [format_posting_date, formatPostingDateSpec, truthyDate,
            skippableDate, List.find?, hb, hf]
          exact fun h => absurd h hn
    | absent =>
      simpa [format_posting_date, formatPostingDateSpec, truthyDate,
        skippableDate, List.find?] using ih

/-! ## Normalizer cleanup pass (`clean_job_data` in `src/scraper.py`) -/

/-- The deduplication key used by
`df.drop_duplicates(subset=['Job Title', 'Company'])`. -/
def recKey (r : JobRecord) : String × String := (r.title, r.company)

/-- `df.drop_duplicates(subset=['Job Title', 'Company'], keep='first')`:
keep a row only if its key has not been seen in an earlier row. -/
def dedupFirst (seen : List (String × String)) : List JobRecord → List JobRecord
  | [] => []
  | r :: rest =>
    if recKey r ∈ seen then dedupFirst seen rest
    else r :: dedupFirst (recKey r :: seen) rest

/-- The per-row effect of the three
`df[col].str.replace(r'\s+', ' ', regex=True).str.strip()` assignments of
`clean_job_data` (Company, Location, Description; the title is not touched). -/
def cleanRecord (r : JobRecord) : JobRecord :=
  { r with
    company := cleanField r.company,
    location := cleanField r.location,
    description := cleanField r.description }

/-- `clean_job_data` from `src/scraper.py`: short-circuit on an empty frame,
drop rows whose stripped title is empty, clean the three text columns,
drop duplicate `(Job Title, Company)` rows keeping the first, reset the
index (row order is preserved, which is what `reset_index(drop=True)`
amounts to in the list model). -/
def clean_job_data (l : List JobRecord) : List JobRecord :=
  if l.isEmpty then l
  else
    dedupFirst []
      ((l.filter (fun r => pyStrip r.title != "")).map cleanRecord)

theorem dedupFirst_filter_key (xs : List JobRecord) :
    ∀ (seen : List (String × String)) (k : String × String),
      (dedupFirst seen xs).filter (fun r => recKey r = k) =
        if k ∈ seen then [] else (xs.filter (fun r => recKey r = k)).take 1 := by
  induction xs with
  | nil => intro seen k; simp [dedupFirst]
  | cons r rest ih =>
    intro seen k
    by_cases hk : k = recKey r
    · subst hk
      by_cases hm : recKey r ∈ seen
      · rw [dedupFirst, if_pos hm, ih, if_pos hm, if_pos hm]
      · rw [dedupFirst, if_neg hm, if_neg hm]
        have h1 : (dedupFirst (recKey r :: seen) rest).filter
            (fun x => decide (recKey x = recKey r)) = [] := by
          rw [ih, if_pos (List.mem_cons_self _ _)]
        simp [List.filter_cons, h1]
    · have hdk : (decide (recKey r = k)) = false :=
        decide_eq_false (fun h => hk h.symm)
      by_cases hm : recKey r ∈ seen
      · rw [dedupFirst, if_pos hm, ih]
        simp [List.filter_cons, hdk]
      · rw [dedupFirst, if_neg hm]
        simp only [List.filter_cons, hdk, if_neg, Bool.false_eq_true, ite_false]
        rw [ih]
        simp [List.mem_cons, hk]

theorem dedupFirst_subset {r : JobRecord} (xs : List JobRecord) :
    ∀ seen, r ∈ dedupFirst seen xs → r ∈ xs := by
  induction xs with
  | nil =>
    intro seen h
    rw [dedupFirst] at h
    exact absurd h (List.not_mem_nil r)
  | cons a rest ih =>
    intro seen h
    rw [dedupFirst] at h
    by_cases hm : recKey a ∈ seen
    · rw [if_pos hm] at h
      exact List.mem_cons_of_mem _ (ih seen h)
    · rw [if_neg hm] at h
      rcases List.mem_cons.mp h with h | h
      · exact h ▸ List.mem_cons_self _ _
      · exact List.mem_cons_of_mem _ (ih _ h)

theorem dedupFirst_keys (xs : List JobRecord) :
    ∀ seen,
      (dedupFirst seen xs).Pairwise (fun a b => recKey a ≠ recKey b) ∧
      ∀ r ∈ dedupFirst seen xs, recKey r ∉ seen := by
  induction xs with
  | nil => intro seen; simp [dedupFirst]
  | cons a rest ih =>
    intro seen
    rw [dedupFirst]
    by_cases hm : recKey a ∈ seen
    · rw [if_pos hm]; exact ih seen
    · rw [if_neg hm]
      obtain ⟨pw, hnot⟩ := ih (recKey a :: seen)
      refine ⟨List.Pairwise.cons ?_ pw, ?_⟩
      · intro b hb
        have := hnot b hb
        simp only [List.mem_cons, not_or] at this
        exact fun h => this.1 h.symm
      · intro r hr
        rcases List.mem_cons.mp hr with h | h
        · exact h ▸ hm
        · intro hseen
          exact (hnot r h) (List.mem_cons_of_mem _ hseen)

theorem dedupFirst_id (xs : List JobRecord) :
    ∀ seen, xs.Pairwise (fun a b => recKey a ≠ recKey b) →
      (∀ r ∈ xs, recKey r ∉ seen) → dedupFirst seen xs = xs := by
  induction xs with
  | nil => intro seen _ _; rfl
  | cons a rest ih =>
    intro seen hpw hnot
    rw [dedupFirst, if_neg (hnot a (List.mem_cons_self _ _))]
    congr 1
    refine ih _ (List.Pairwise.of_cons hpw) ?_
    intro r hr
    simp only [List.mem_cons, not_or]
    exact ⟨fun h => (List.pairwise_cons.mp hpw).1 r hr h.symm,
           hnot r (List.mem_cons_of_mem _ hr)⟩

/-- C3: for every input batch, the normalizer output has (i) no blank or
whitespace-only titles, (ii) pairwise-distinct `(title, company)` keys — at
most one record per pair — and (iii) for each key the output retains exactly
the first record carrying that key, in encounter order, from the
title-filtered and whitespace-cleaned rows. -/
theorem C3_dedup_invariant (l : List JobRecord) :
    (∀ r ∈ clean_job_data l, pyStrip r.title ≠ "")
  ∧ (clean_job_data l).Pairwise (fun a b => recKey a ≠ recKey b)
  ∧ ∀ k : String × String,
      (clean_job_data l).filter (fun r => recKey r = k) =
        (((l.filter (fun r => pyStrip r.title != "")).map cleanRecord).filter
          (fun r => recKey r = k)).take 1 := by
  cases l with
  | nil => refine ⟨by simp [clean_job_data], by simp [clean_job_data], ?_⟩
           intro k; simp [clean_job_data]
  | cons a t =>
    have hne : ¬(a :: t).isEmpty = true := by simp
    rw [clean_job_data, if_neg hne]
    refine ⟨?_, (dedupFirst_keys _ []).1, ?_⟩
    · intro r hr
      have hmem := dedupFirst_subset _ [] hr
      obtain ⟨r', hr', hmap⟩ := List.mem_map.mp hmem
      have := (List.mem_filter.mp hr').2
      have htitle : r.title = r'.title := by rw [← hmap]; rfl
      rw [htitle]
      simpa using this
    · intro k
      rw [dedupFirst_filter_key _ [] k]
      simp

/-- C3 witness: the combined invariant applied to a concrete two-record
batch containing an exact duplicate. -/
theorem C3_dedup_invariant_witness :
    pyStrip recWFH.title ≠ ""
  ∧ (clean_job_data [recWFH, recWFH]).filter
      (fun r => recKey r = recKey recWFH) =
    ((([recWFH, recWFH].filter (fun r => pyStrip r.title != "")).map
        cleanRecord).filter (fun r => recKey r = recKey recWFH)).take 1 :=
  ⟨(C3_dedup_invariant [recWFH, recWFH]).1 recWFH (by decide),
   (C3_dedup_invariant [recWFH, recWFH]).2.2 (recKey recWFH)⟩

/-! ## Idempotence machinery for `subRuns` / `stripEnds` -/

theorem subRunsGo_mem {p : Char → Bool} {rep : Char} (l : List Char) :
    ∀ b c, c ∈ subRunsGo p rep b l → c = rep ∨ (c ∈ l ∧ p c = false) := by
  induction l with
  | nil => intro b c h; rw [subRunsGo] at h; exact absurd h (List.not_mem_nil c)
  | cons a t ih =>
    intro b c h
    rw [subRunsGo] at h
    by_cases hp : p a = true
    · rw [if_pos hp] at h
      cases b with
      | true =>
        rcases ih true c h with h' | ⟨h1, h2⟩
        · exact Or.inl h'
        · exact Or.inr ⟨List.mem_cons_of_mem _ h1, h2⟩
      | false =>
        rcases List.mem_cons.mp h with h' | h'
        · exact Or.inl h'
        · rcases ih true c h' with h'' | ⟨h1, h2⟩
          · exact Or.inl h''
          · exact Or.inr ⟨List.mem_cons_of_mem _ h1, h2⟩
    · rw [if_neg hp] at h
      rcases List.mem_cons.mp h with h' | h'
      · exact Or.inr ⟨h' ▸ List.mem_cons_self _ _,
          h' ▸ Bool.not_eq_true _ ▸ (by simpa using hp)⟩
      · rcases ih false c h' with h'' | ⟨h1, h2⟩
        · exact Or.inl h''
        · exact Or.inr ⟨List.mem_cons_of_mem _ h1, h2⟩

theorem subRunsGo_head_true {p : Char → Bool} {rep : Char} (l : List Char) :
    ∀ c, (subRunsGo p rep true l).head? = some c → p c = false := by
  induction l with
  | nil => intro c h; rw [subRunsGo] at h; cases h
  | cons a t ih =>
    intro c h
    rw [subRunsGo] at h
    by_cases hp : p a = true
    · rw [if_pos hp] at h; exact ih c h
    · rw [if_neg hp] at h
      simp only [List.head?_cons, Option.some.injEq] at h
      subst h
      simpa using hp

theorem subRunsGo_chain {p : Char → Bool} {rep : Char} (l : List Char) :
    ∀ b, (subRunsGo p rep b l).Chain'
      (fun x y => ¬(p x = true ∧ p y = true)) := by
  induction l with
  | nil => intro b; rw [subRunsGo]; exact List.chain'_nil
  | cons a t ih =>
    intro b
    rw [subRunsGo]
    by_cases hp : p a = true
    · rw [if_pos hp]
      cases b with
      | true => exact ih true
      | false =>
        refine List.chain'_cons'.mpr ⟨?_, ih true⟩
        intro y hy
        have := subRunsGo_head_true t y hy
        simp [this]
    · rw [if_neg hp]
      refine List.chain'_cons'.mpr ⟨?_, ih false⟩
      intro y _
      simp [hp]

theorem subRunsGo_true_eq_false {p : Char → Bool} {rep : Char} (l : List Char)
    (h : ∀ c, l.head? = some c → p c = false) :
    subRunsGo p rep true l = subRunsGo p rep false l := by
  cases l with
  | nil => rfl
  | cons a t =>
    have := h a rfl
    rw [subRunsGo, subRunsGo, if_neg (by simp [this]), if_neg (by simp [this])]

theorem subRuns_id {p : Char → Bool} {rep : Char} (l : List Char)
    (hchain : l.Chain' (fun x y => ¬(p x = true ∧ p y = true)))
    (hrep : ∀ c ∈ l, p c = true → c = rep) :
    subRuns p rep l = l := by
  induction l with
  | nil => rfl
  | cons a t ih =>
    rw [subRuns, subRunsGo]
    by_cases hp : p a = true
    · rw [if_pos hp]
      have ha : a = rep := hrep a (List.mem_cons_self _ _) hp
      have hhead : ∀ c, t.head? = some c → p c = false := by
        intro c hc
        have := (List.chain'_cons'.mp hchain).1 c hc
        by_contra hpc
        exact this ⟨hp, by simpa using hpc⟩
      rw [subRunsGo_true_eq_false t hhead]
      have := ih (List.chain'_cons'.mp hchain).2
        (fun c hc hpc => hrep c (List.mem_cons_of_mem _ hc) hpc)
      rw [subRuns] at this
      rw [this, ha]
      simp
    · rw [if_neg hp]
      have := ih (List.chain'_cons'.mp hchain).2
        (fun c hc hpc => hrep c (List.mem_cons_of_mem _ hc) hpc)
      rw [subRuns] at this
      rw [this]

theorem stripEnds_subset {p : Char → Bool} {c : Char} {l : List Char}
    (h : c ∈ stripEnds p l) : c ∈ l := by
  rw [stripEnds] at h
  rw [List.mem_reverse] at h
  have h1 := (List.dropWhile_sublist (l := (l.dropWhile p).reverse) p).mem h
  rw [List.mem_reverse] at h1
  exact (List.dropWhile_sublist p).mem h1

theorem head_dropWhile {p : Char → Bool} (l : List Char) :
    ∀ c, (l.dropWhile p).head? = some c → p c = false := by
  induction l with
  | nil => intro c h; cases h
  | cons a t ih =>
    intro c h
    rw [List.dropWhile_cons] at h
    by_cases hp : p a = true
    · rw [if_pos hp] at h; exact ih c h
    · rw [if_neg hp] at h
      simp only [List.head?_cons, Option.some.injEq] at h
      subst h
      simpa using hp

theorem stripEnds_chain {p : Char → Bool} {R : Char → Char → Prop}
    (hsymm : ∀ x y, R x y → R y x) {l : List Char} (h : l.Chain' R) :
    (stripEnds p l).Chain' R := by
  rw [stripEnds]
  have h1 : (l.dropWhile p).Chain' R := h.suffix (List.dropWhile_suffix p)
  have h2 : ((l.dropWhile p).reverse).Chain' R :=
    List.chain'_reverse.mpr (h1.imp (fun x y hxy => hsymm x y hxy))
  have h3 := h2.suffix (List.dropWhile_suffix p)
  exact List.chain'_reverse.mpr (h3.imp (fun x y hxy => hsymm x y hxy))

theorem stripEnds_head {p : Char → Bool} (l : List Char) :
    ∀ c, (stripEnds p l).head? = some c → p c = false := by
  intro c h
  rw [stripEnds, List.head?_reverse] at h
  set m := l.dropWhile p with hm
  set d := m.reverse.dropWhile p with hd
  have hdn : d ≠ [] := by
    intro he
    rw [he] at h
    cases h
  obtain ⟨pre, hpre⟩ := List.dropWhile_suffix (l := m.reverse) p
  have : m.reverse.getLast? = some c := by
    rw [← hpre, List.getLast?_append_of_ne_nil _ hdn, h]
  rw [List.getLast?_reverse] at this
  exact head_dropWhile l c this

theorem stripEnds_last {p : Char → Bool} (l : List Char) :
    ∀ c, (stripEnds p l).getLast? = some c → p c = false := by
  intro c h
  rw [stripEnds, List.getLast?_reverse] at h
  exact head_dropWhile _ c h

theorem dropWhile_eq_self_of_head {p : Char → Bool} (l : List Char)
    (h : ∀ c, l.head? = some c → p c = false) : l.dropWhile p = l := by
  cases l with
  | nil => rfl
  | cons a t =>
    rw [List.dropWhile_cons, if_neg (by simp [h a rfl])]

theorem stripEnds_id {p : Char → Bool} (l : List Char)
    (hh : ∀ c, l.head? = some c → p c = false)
    (hl : ∀ c, l.getLast? = some c → p c = false) : stripEnds p l = l := by
  rw [stripEnds, dropWhile_eq_self_of_head l hh,
    dropWhile_eq_self_of_head l.reverse
      (fun c hc => hl c (by rwa [List.head?_reverse] at hc)),
    List.reverse_reverse]

theorem cleanField_idem (s : String) : cleanField (cleanField s) = cleanField s := by
  have hinner : (cleanField s).toList =
      stripEnds isPySpace (subRuns isPySpace ' ' s.toList) := rfl
  have hchain : (cleanField s).toList.Chain'
      (fun x y => ¬(isPySpace x = true ∧ isPySpace y = true)) := by
    rw [hinner]
    exact stripEnds_chain (fun x y hxy h => hxy ⟨h.2, h.1⟩) (subRunsGo_chain _ false)
  have hrep : ∀ c ∈ (cleanField s).toList, isPySpace c = true → c = ' ' := by
    intro c hc hpc
    rw [hinner] at hc
    have := stripEnds_subset hc
    rcases subRunsGo_mem _ false c this with h | ⟨_, h2⟩
    · exact h
    · rw [hpc] at h2; cases h2
  have hsub : subRuns isPySpace ' ' (cleanField s).toList = (cleanField s).toList :=
    subRuns_id _ hchain hrep
  have hstrip : stripEnds isPySpace (cleanField s).toList = (cleanField s).toList := by
    refine stripEnds_id _ ?_ ?_
    · rw [hinner]; exact stripEnds_head _
    · rw [hinner]; exact stripEnds_last _
  show (⟨stripEnds isPySpace (subRuns isPySpace ' ' (cleanField s).toList)⟩ : String) =
    cleanField s
  rw [hsub, hstrip]
  rfl

theorem cleanRecord_idem (r : JobRecord) :
    cleanRecord (cleanRecord r) = cleanRecord r := by
  simp [cleanRecord, cleanField_idem]

theorem clean_rows_canonical (l' : List JobRecord) :
    ∀ r ∈ (l'.filter (fun r => pyStrip r.title != "")).map cleanRecord,
      (pyStrip r.title != "") = true ∧ cleanRecord r = r := by
  intro r hr
  obtain ⟨r', hr', hmap⟩ := List.mem_map.mp hr
  constructor
  · have := (List.mem_filter.mp hr').2
    have ht : r.title = r'.title := by rw [← hmap]; rfl
    rw [ht]
    exact this
  · rw [← hmap]
    exact cleanRecord_idem r'

/-- C6: the normalizer's cleanup pass is idempotent — re-running
`clean_job_data` on its own output changes nothing: no further title drop,
no whitespace change, no additional deduplication. -/
theorem C6_normalize_idempotent (l : List JobRecord) :
    clean_job_data (clean_job_data l) = clean_job_data l := by
  cases l with
  | nil => rfl
  | cons a t =>
    have hprops := clean_rows_canonical (a :: t)
    set xs := ((a :: t).filter (fun r => pyStrip r.title != "")).map cleanRecord
      with hxs
    have hclean : clean_job_data (a :: t) = dedupFirst [] xs := by
      rw [clean_job_data, if_neg (by simp), hxs]
    rw [hclean]
    cases hout : dedupFirst [] xs with
    | nil => rfl
    | cons b u =>
      have hsub : ∀ r ∈ b :: u, r ∈ xs := by
        intro r hr
        exact dedupFirst_subset xs [] (by rw [hout]; exact hr)
      have hfilter : (b :: u).filter (fun r => pyStrip r.title != "") = b :: u :=
        List.filter_eq_self.mpr (fun r hr => (hprops r (hsub r hr)).1)
      have hmap : (b :: u).map cleanRecord = b :: u := by
        rw [List.map_congr_left
          (fun r hr => ((hprops r (hsub r hr)).2 : cleanRecord r = id r))]
        exact List.map_id _
      rw [clean_job_data, if_neg (by simp), hfilter, hmap]
      have hkeys := (dedupFirst_keys xs []).1
      rw [hout] at hkeys
      exact dedupFirst_id _ [] hkeys (fun r _ => List.not_mem_nil _)

/-! ## Filename sanitizer (`sanitize_filename` in `src/utils.py`) -/

/-- The character class of the first substitution:
`re.sub(r'[<>:"/\\|?*]', '_', filename)`. -/
def invalidFileChar (c : Char) : Bool :=
  c = '<' || c = '>' || c = ':' || c = '"' || c = '/' || c = '\\' ||
    c = '|' || c = '?' || c = '*'

/-- The underscore character class used by `re.sub(r'_+', '_', ...)` and
`.strip('_')`. -/
def isUnd (c : Char) : Bool := c = '_'

/-- `sanitize_filename` from `src/utils.py`: replace each invalid character
by an underscore, collapse underscore runs, strip boundary underscores, and
fall back to "jobs" when nothing remains. -/
def sanitize_filename (s : String) : String :=
  let s1 := s.toList.map (fun c => if invalidFileChar c then '_' else c)
  let s2 := subRuns isUnd '_' s1
  let s3 := stripEnds isUnd s2
  if s3.isEmpty then "jobs" else ⟨s3⟩

/-- Boolean check: no two adjacent characters both satisfy `p`. -/
def noDoubleRep (p : Char → Bool) : List Char → Bool
  | [] => true
  | [_] => true
  | a :: b :: rest => !(p a && p b) && noDoubleRep p (b :: rest)

/-- Boolean check: neither the first nor the last character satisfies `p`. -/
def boundaryFree (p : Char → Bool) (l : List Char) : Bool :=
  (match l.head? with
   | none => true
   | some c => !p c) &&
  (match l.getLast? with
   | none => true
   | some c => !p c)

theorem noDoubleRep_of_chain {p : Char → Bool} :
    ∀ l : List Char, l.Chain' (fun x y => ¬(p x = true ∧ p y = true)) →
      noDoubleRep p l = true := by
  intro l
  induction l with
  | nil => intro _; rfl
  | cons a t ih =>
    intro h
    cases t with
    | nil => rfl
    | cons b rest =>
      obtain ⟨hab, htail⟩ := List.chain'_cons.mp h
      rw [noDoubleRep, Bool.and_eq_true]
      refine ⟨?_, ih htail⟩
      by_cases hpa : p a = true
      · by_cases hpb : p b = true
        · exact absurd ⟨hpa, hpb⟩ hab
        · simp [hpb]
      · simp [hpa]

/-- C10: for every input, `sanitize_filename` returns a non-empty string
with no invalid filename characters, no doubled underscore, and no leading
or trailing underscore (falling back to "jobs" when the sanitized text is
empty). -/
theorem C10_sanitize_filename (s : String) :
    sanitize_filename s ≠ ""
  ∧ (sanitize_filename s).toList.all (fun c => !invalidFileChar c) = true
  ∧ noDoubleRep isUnd (sanitize_filename s).toList = true
  ∧ boundaryFree isUnd (sanitize_filename s).toList = true := by
  rw [sanitize_filename]
  set s1 := s.toList.map (fun c => if invalidFileChar c then '_' else c) with hs1
  set s2 := subRuns isUnd '_' s1 with hs2
  set s3 := stripEnds isUnd s2 with hs3
  by_cases h3 : s3.isEmpty
  · rw [if_pos h3]
    exact ⟨by decide, by decide, by decide, by decide⟩
  · rw [if_neg h3]
    have htl : (⟨s3⟩ : String).toList = s3 := rfl
    refine ⟨?_, ?_, ?_, ?_⟩
    · intro h
      have : s3 = [] := congrArg String.toList h
      rw [this] at h3
      exact h3 rfl
    · rw [htl, List.all_eq_true]
      intro c hc
      have hc2 : c ∈ s2 := stripEnds_subset hc
      rcases subRunsGo_mem s1 false c hc2 with h | ⟨h1, _⟩
      · rw [h]; decide
      · obtain ⟨orig, _, hmap⟩ := List.mem_map.mp h1
        rw [← hmap]
        by_cases ho : invalidFileChar orig = true
        · rw [if_pos ho]; decide
        · rw [if_neg ho]
          simpa using ho
    · rw [htl]
      refine noDoubleRep_of_chain s3 ?_
      rw [hs3]
      exact stripEnds_chain (fun x y hxy h => hxy ⟨h.2, h.1⟩)
        (subRunsGo_chain s1 false)
    · rw [htl, boundaryFree, Bool.and_eq_true]
      constructor
      · cases hh : s3.head? with
        | none => rfl
        | some c =>
          have := stripEnds_head (p := isUnd) s2 c (by rw [← hs3]; exact hh)
          simp [this]
      · cases hh : s3.getLast? with
        | none => rfl
        | some c =>
          have := stripEnds_last (p := isUnd) s2 c (by rw [← hs3]; exact hh)
          simp [this]

/-! ## Keyword classifier (`src/job_tagger.py`) -/

/-- The fixed `theme_categories` table of `tag_jobs_by_theme` in
`src/job_tagger.py`, in its source order (Python dict literals preserve
insertion order). -/
def theme_categories : List (String × List String) := [
  ("Computer Vision", [
    "computer vision", "cv", "image processing", "opencv", "image recognition",
    "object detection", "facial recognition", "medical imaging", "autonomous",
    "lidar", "camera", "visual", "perception"]),
  ("Natural Language Processing", [
    "nlp", "natural language", "language model", "text processing", "chatbot",
    "sentiment analysis", "speech recognition", "translation", "linguistics",
    "transformer", "bert", "gpt", "llm"]),
  ("Generative AI", [
    "generative ai", "genai", "gpt", "llm", "large language model", "diffusion",
    "stable diffusion", "dall-e", "midjourney", "text generation", "ai art",
    "prompt engineering", "fine-tuning", "rag", "retrieval augmented"]),
  ("Machine Learning", [
    "machine learning", "ml", "deep learning", "neural network", "tensorflow",
    "pytorch", "scikit-learn", "keras", "model training", "feature engineering",
    "regression", "classification", "clustering", "supervised", "unsupervised"]),
  ("Data Science", [
    "data science", "data scientist", "data analysis", "statistics", "pandas",
    "numpy", "jupyter", "visualization", "tableau", "power bi", "sql",
    "database", "etl", "data pipeline", "analytics"]),
  ("Robotics", [
    "robotics", "robot", "ros", "autonomous", "drone", "manipulation",
    "control systems", "embedded", "sensors", "actuators", "path planning"]),
  ("Healthcare AI", [
    "healthcare", "medical", "biotech", "pharmaceutical", "clinical",
    "health tech", "telemedicine", "medical device", "fda", "hipaa",
    "radiology", "pathology", "genomics"]),
  ("FinTech", [
    "fintech", "financial", "banking", "trading", "cryptocurrency", "blockchain",
    "payments", "fraud detection", "risk management", "algorithmic trading",
    "quantitative", "portfolio"]),
  ("Cloud & DevOps", [
    "cloud", "aws", "azure", "gcp", "kubernetes", "docker", "devops",
    "ci/cd", "infrastructure", "terraform", "microservices", "serverless"]),
  ("Research", [
    "research", "phd", "academic", "publication", "conference", "arxiv",
    "experimental", "theoretical", "university", "lab", "postdoc"]),
  ("Software Engineering", [
    "software engineer", "software developer", "backend", "frontend",
    "full stack", "microservices", "api design", "rest", "graphql",
    "design patterns", "oop", "typescript", "react", "java", "c++", "go"]),
  ("Data Engineering & ETL", [
    "data engineer", "etl", "data pipeline", "airflow", "spark", "dask",
    "bigquery", "databricks", "warehousing", "redshift", "snowflake",
    "kinesis", "kafka", "streaming", "batch processing"]),
  ("MLOps & LLMOps", [
    "mlops", "llmops", "model serving", "model deployment", "model monitoring",
    "kubeflow", "sagemaker", "vertex ai", "mlflow", "feature store",
    "inference", "ab testing", "drift detection", "vector database"]),
  ("Speech & Audio", [
    "speech", "asr", "speech recognition", "tts", "voice assistant",
    "audio processing", "music information retrieval", "speaker diarization",
    "audio classification", "sound event detection"]),
  ("Cybersecurity & Privacy", [
    "cybersecurity", "security engineer", "infosec", "penetration testing",
    "vulnerability", "threat detection", "siem", "incident response",
    "privacy", "gdpr", "pki", "zero trust", "iam"]),
  ("Augmented / Virtual Reality", [
    "ar", "vr", "mixed reality", "xr", "oculus",
    "hololens", "3d graphics", "rendering", "spatial computing"]),
  ("Autonomous Vehicles", [
    "autonomous vehicle", "self driving", "ad as", "lidar", "sensor fusion",
    "slam", "path planning", "drive sim", "perception stack", "automotive safety"]),
  ("Edge & Embedded AI", [
    "edge ai", "embedded ai", "tinyml", "micropython", "tflite", "rtos",
    "arm cortex", "nvidia jetson", "raspberry pi", "low-power inference"]),
  ("Quantum Computing", [
    "quantum computing", "quantum algorithms", "qiskit", "cirq", "quantum error correction",
    "superconducting qubits", "quantum annealing", "quantum machine learning"]),
  ("EdTech & Learning Analytics", [
    "edtech", "education technology", "learning analytics", "adaptive learning",
    "lms", "moodle", "canvas", "mooc", "student success", "assessment analytics"]),
  ("Climate Tech & Sustainability", [
    "climate tech", "sustainability", "carbon accounting", "energy modeling",
    "renewables", "climate risk", "emissions", "smart grid", "agritech", "environmental"])]

/-- The analysis text of `categorize_job`:
`" ".join([title, description, company]).lower()`. -/
def analysisText (r : JobRecord) : String :=
  strLower (r.title ++ " " ++ r.description ++ " " ++ r.company)

/-- Does some keyword of the category occur in the (already lower-cased)
analysis text?  This is the inner `for keyword in keywords: if
keyword.lower() in text_to_analyze: ... break` loop of `categorize_job`. -/
def categoryMatches (text : String) (kws : List String) : Bool :=
  kws.any (fun kw => hasSubstr (strLower kw).toList text.toList)

/-- The outer category walk of `categorize_job`, accumulating
`matching_tags` in table order (a label is appended only if not already
present, exactly as the source checks `if category not in matching_tags`). -/
def collectTags (text : String) : List (String × List String) → List String →
    List String
  | [], acc => acc
  | (cat, kws) :: rest, acc =>
    if categoryMatches text kws then
      if cat ∈ acc then collectTags text rest acc
      else collectTags text rest (acc ++ [cat])
    else collectTags text rest acc

/-- The tag sequence assigned by `categorize_job` (the source renders it as
`", ".join(matching_tags[:3])`; this is that list before joining, with the
`"General Tech"` fallback). -/
def categorize_job_tags (r : JobRecord) : List String :=
  let matching := collectTags (analysisText r) theme_categories []
  if matching.isEmpty then ["General Tech"] else matching.take 3

/-- The string actually returned by `categorize_job` in `src/job_tagger.py`
(the `Tags` cell). -/
def categorize_job (r : JobRecord) : String :=
  let matching := collectTags (analysisText r) theme_categories []
  if matching.isEmpty then "General Tech"
  else ", ".intercalate (matching.take 3)

theorem mem_collectTags (text : String) :
    ∀ (table : List (String × List String)) (acc : List String) (x : String),
      x ∈ collectTags text table acc ↔
        x ∈ acc ∨ ∃ p ∈ table, p.1 = x ∧ categoryMatches text p.2 = true := by
  intro table
  induction table with
  | nil => intro acc x; simp [collectTags]
  | cons q rest ih =>
    intro acc x
    obtain ⟨cat, kws⟩ := q
    rw [collectTags]
    by_cases hm : categoryMatches text kws = true
    · rw [if_pos hm]
      by_cases hc : cat ∈ acc
      · rw [if_pos hc, ih]
        constructor
        · rintro (h | ⟨p, hp, h1, h2⟩)
          · exact Or.inl h
          · exact Or.inr ⟨p, List.mem_cons_of_mem _ hp, h1, h2⟩
        · rintro (h | ⟨p, hp, h1, h2⟩)
          · exact Or.inl h
          · rcases List.mem_cons.mp hp with he | hp'
            · subst he
              left
              simp only at h1
              rw [← h1]
              exact hc
            · exact Or.inr ⟨p, hp', h1, h2⟩
      · rw [if_neg hc, ih]
        constructor
        · rintro (h | ⟨p, hp, h1, h2⟩)
          · rcases List.mem_append.mp h with h' | h'
            · exact Or.inl h'
            · right
              refine ⟨(cat, kws), List.mem_cons_self _ _, ?_, hm⟩
              simp only [List.mem_singleton] at h'
              simp [h']
          · exact Or.inr ⟨p, List.mem_cons_of_mem _ hp, h1, h2⟩
        · rintro (h | ⟨p, hp, h1, h2⟩)
          · exact Or.inl (List.mem_append.mpr (Or.inl h))
          · rcases List.mem_cons.mp hp with he | hp'
            · subst he
              simp only at h1
              left
              apply List.mem_append.mpr
              right
              simp [h1]
            · exact Or.inr ⟨p, hp', h1, h2⟩
    · rw [if_neg hm, ih]
      constructor
      · rintro (h | ⟨p, hp, h1, h2⟩)
        · exact Or.inl h
        · exact Or.inr ⟨p, List.mem_cons_of_mem _ hp, h1, h2⟩
      · rintro (h | ⟨p, hp, h1, h2⟩)
        · exact Or.inl h
        · rcases List.mem_cons.mp hp with he | hp'
          · subst he
            exact absurd h2 hm
          · exact Or.inr ⟨p, hp', h1, h2⟩

theorem collectTags_eq_filter (text : String) :
    ∀ (table : List (String × List String)) (acc : List String),
      (∀ p ∈ table, p.1 ∉ acc) → (table.map Prod.fst).Nodup →
      collectTags text table acc =
        acc ++ (table.filter (fun p => categoryMatches text p.2)).map Prod.fst := by
  intro table
  induction table with
  | nil => intro acc _ _; simp [collectTags]
  | cons q rest ih =>
    intro acc hdisj hnodup
    obtain ⟨cat, kws⟩ := q
    rw [collectTags]
    have hcatacc : cat ∉ acc := hdisj (cat, kws) (List.mem_cons_self _ _)
    have hnodup' := hnodup
    rw [List.map_cons, List.nodup_cons] at hnodup'
    by_cases hm : categoryMatches text kws = true
    · rw [if_pos hm, if_neg hcatacc]
      have hdisj' : ∀ p ∈ rest, p.1 ∉ acc ++ [cat] := by
        intro p hp
        rw [List.mem_append, List.mem_singleton]
        rintro (h | h)
        · exact hdisj p (List.mem_cons_of_mem _ hp) h
        · exact hnodup'.1 (List.mem_map.mpr ⟨p, hp, h⟩)
      rw [ih (acc ++ [cat]) hdisj' hnodup'.2]
      simp [List.filter_cons, hm]
    · rw [if_neg hm]
      rw [ih acc (fun p hp => hdisj p (List.mem_cons_of_mem _ hp)) hnodup'.2]
      simp [List.filter_cons, hm]

/-- C4: every classified record carries between 1 and 3 tags, and the tags
are exactly the sentinel `["General Tech"]` precisely when no category of
the table matched the record's analysis text. -/
theorem C4_tag_bound (r : JobRecord) :
    1 ≤ (categorize_job_tags r).length ∧ (categorize_job_tags r).length ≤ 3 ∧
    (categorize_job_tags r = ["General Tech"] ↔
      ∀ p ∈ theme_categories, categoryMatches (analysisText r) p.2 = false) := by
  have hGT : "General Tech" ∉ theme_categories.map Prod.fst := by decide
  rw [categorize_job_tags]
  cases hm : (collectTags (analysisText r) theme_categories []).isEmpty
  · have hne : collectTags (analysisText r) theme_categories [] ≠ [] := by
      intro h
      rw [h] at hm
      cases hm
    simp only [hm, Bool.false_eq_true, if_false]
    refine ⟨?_, ?_, ?_⟩
    · rw [List.length_take]
      have := List.length_pos.mpr hne
      omega
    · rw [List.length_take]
      omega
    · constructor
      · intro htake
        exfalso
        have hmem : "General Tech" ∈ collectTags (analysisText r) theme_categories [] := by
          have : "General Tech" ∈ (collectTags (analysisText r) theme_categories []).take 3 := by
            rw [htake]
            exact List.mem_singleton.mpr rfl
          exact List.mem_of_mem_take this
        rcases (mem_collectTags _ _ _ _).mp hmem with h | ⟨p, hp, h1, _⟩
        · exact absurd h (List.not_mem_nil _)
        · exact hGT (h1 ▸ List.mem_map_of_mem Prod.fst hp)
      · intro hnone
        exfalso
        apply hne
        rw [List.eq_nil_iff_forall_not_mem]
        intro x hx
        rcases (mem_collectTags _ _ _ _).mp hx with h | ⟨p, hp, _, h2⟩
        · exact absurd h (List.not_mem_nil _)
        · rw [hnone p hp] at h2
          cases h2
  · have hnil : collectTags (analysisText r) theme_categories [] = [] :=
      List.isEmpty_iff.mp hm
    simp only [hm, if_true]
    refine ⟨by simp, by simp, ?_⟩
    constructor
    · intro _ p hp
      by_contra hmatch
      rw [Bool.not_eq_false] at hmatch
      have : p.1 ∈ collectTags (analysisText r) theme_categories [] :=
        (mem_collectTags _ _ _ _).mpr (Or.inr ⟨p, hp, rfl, hmatch⟩)
      rw [hnil] at this
      exact absurd this (List.not_mem_nil _)
    · intro _
      trivial

/-- C5: classification lower-cases the concatenation of title, description
and company (in that order), walks the category table in order crediting
each category at most once when any of its keywords occurs in the text, and
(when at least one category matched) returns the matched labels in table
order truncated to the first three — both as the tag list and as the
comma-joined `Tags` string. -/
theorem C5_classifier_structure (r : JobRecord)
    (h : (theme_categories.filter
        (fun p => categoryMatches (analysisText r) p.2)).map Prod.fst ≠ []) :
    categorize_job_tags r =
      (((theme_categories.filter
        (fun p => categoryMatches (analysisText r) p.2)).map Prod.fst).take 3)
  ∧ categorize_job r = ", ".intercalate
      (((theme_categories.filter
        (fun p => categoryMatches (analysisText r) p.2)).map Prod.fst).take 3)
  ∧ analysisText r = strLower (r.title ++ " " ++ r.description ++ " " ++ r.company) := by
  have hnodup : (theme_categories.map Prod.fst).Nodup := by decide
  have heq : collectTags (analysisText r) theme_categories [] =
      (theme_categories.filter
        (fun p => categoryMatches (analysisText r) p.2)).map Prod.fst := by
    rw [collectTags_eq_filter _ _ [] (by simp) hnodup]
    simp
  have hne : (collectTags (analysisText r) theme_categories []).isEmpty = false := by
    rw [heq]
    rw [List.isEmpty_eq_false]
    exact h
  refine ⟨?_, ?_, rfl⟩
  · rw [categorize_job_tags]
    simp only [hne, Bool.false_eq_true, if_false]
    rw [heq]
  · rw [categorize_job]
    simp only [hne, Bool.false_eq_true, if_false]
    rw [heq]

/-- A minimal record whose analysis text contains the keyword "ml" and no
other keyword of the table. -/
def recML : JobRecord :=
  { title := "ml intern", company := "", location := "", description := "",
    applyLink := "", jobType := "", postingDate := "" }

/-- C5 witness: the classifier characterisation applied to `recML`, whose
only matching category is "Machine Learning". -/
theorem C5_classifier_structure_witness :
    categorize_job_tags recML =
      (((theme_categories.filter
        (fun p => categoryMatches (analysisText recML) p.2)).map Prod.fst).take 3)
  ∧ categorize_job recML = ", ".intercalate
      (((theme_categories.filter
        (fun p => categoryMatches (analysisText recML) p.2)).map Prod.fst).take 3)
  ∧ analysisText recML =
      strLower (recML.title ++ " " ++ recML.description ++ " " ++ recML.company) :=
  C5_classifier_structure recML (by decide)

/-- C4 witness: the tag bound evaluated at the concrete record `recML`. -/
theorem C4_tag_bound_witness :
    1 ≤ (categorize_job_tags recML).length ∧
    (categorize_job_tags recML).length ≤ 3 ∧
    (categorize_job_tags recML = ["General Tech"] ↔
      ∀ p ∈ theme_categories, categoryMatches (analysisText recML) p.2 = false) :=
  C4_tag_bound recML

/-! ## Tag statistics (`get_tag_statistics` in `src/job_tagger.py`) -/

/-- Python's `str.split(',')` at character level (keeps empty pieces). -/
def splitOnComma (acc : List Char) : List Char → List (List Char)
  | [] => [acc.reverse]
  | c :: rest =>
    if c = ',' then acc.reverse :: splitOnComma [] rest
    else splitOnComma (c :: acc) rest

/-- `[tag.strip() for tag in tags_str.split(',')]` from `get_tag_statistics`. -/
def splitTags (s : String) : List String :=
  (splitOnComma [] s.toList).map (fun cs => (⟨stripEnds isPySpace cs⟩ : String))

/-- One `tag_counts[tag] = tag_counts.get(tag, 0) + 1` step on the
insertion-ordered dict (updating a present key keeps its position; a new key
is appended, i.e. keys stay in first-encounter order). -/
def bumpTag : List (String × Nat) → String → List (String × Nat)
  | [], t => [(t, 1)]
  | (k, v) :: rest, t =>
    if k = t then (k, v + 1) :: rest else (k, v) :: bumpTag rest t

/-- The `tag_counts` dict accumulated over the `Tags` column (every cell is a
string produced by `categorize_job`, so the `pd.notna` guard is always
taken). -/
def tagCounts (tagsCol : List String) : List (String × Nat) :=
  tagsCol.foldl (fun m s => (splitTags s).foldl bumpTag m) []

/-- Stable insertion into a count-descending list: the element being
inserted originates later in the original order than everything already in
the list, so on ties it goes after them. -/
def insertByCount (x : String × Nat) : List (String × Nat) → List (String × Nat)
  | [] => [x]
  | y :: rest => if y.2 ≤ x.2 then x :: y :: rest else y :: insertByCount x rest

/-- Stable sort by descending count; extensionally equal to Python's stable
`sorted(tag_counts.items(), key=lambda x: x[1], reverse=True)` (CPython's
sort is stable and `reverse=True` preserves the original order of ties). -/
def sortByCountDesc : List (String × Nat) → List (String × Nat)
  | [] => []
  | x :: rest => insertByCount x (sortByCountDesc rest)

/-- `get_tag_statistics` from `src/job_tagger.py` over the `Tags` column;
`dict(...)` applied to distinct-keyed pairs is the ordered association list
itself.  The `'Tags' not in columns or df.empty` guard returns the empty
dict, which coincides with the computation on the empty column. -/
def get_tag_statistics (tagsCol : List String) : List (String × Nat) :=
  sortByCountDesc (tagCounts tagsCol)

/-- The number of occurrences of label `lab` across the parsed tag lists of
the column. -/
def occCount (lab : String) (tagsCol : List String) : Nat :=
  (tagsCol.map (fun s => (splitTags s).count lab)).sum

theorem lookup_bumpTag (m : List (String × Nat)) (t x : String) :
    (bumpTag m t).lookup x =
      if x = t then some ((m.lookup t).getD 0 + 1) else m.lookup x := by
  induction m with
  | nil =>
    by_cases h : x = t
    · subst h; simp [bumpTag, List.lookup]
    · simp [bumpTag, List.lookup, h, beq_eq_false_iff_ne.mpr h]
  | cons kv rest ih =>
    obtain ⟨k, v⟩ := kv
    by_cases hk : k = t
    · subst hk
      rw [bumpTag, if_pos rfl]
      by_cases hx : x = k
      · subst hx; simp [List.lookup]
      · simp [List.lookup, beq_eq_false_iff_ne.mpr hx, hx]
    · rw [bumpTag, if_neg hk]
      by_cases hx : x = k
      · subst hx
        simp [List.lookup, hk]
      · simp [List.lookup, beq_eq_false_iff_ne.mpr hx,
          beq_eq_false_iff_ne.mpr (Ne.symm hk), ih]

theorem bumpTag_keys (m : List (String × Nat)) (t : String) :
    (bumpTag m t).map Prod.fst =
      if t ∈ m.map Prod.fst then m.map Prod.fst else m.map Prod.fst ++ [t] := by
  induction m with
  | nil => simp [bumpTag]
  | cons kv rest ih =>
    obtain ⟨k, v⟩ := kv
    by_cases hk : k = t
    · subst hk; simp [bumpTag]
    · rw [bumpTag, if_neg hk]
      simp only [List.map_cons, ih, List.mem_cons]
      by_cases hmem : t ∈ rest.map Prod.fst
      · simp [hmem]
      · simp [hmem, Ne.symm hk]

theorem bumpTag_keys_nodup (m : List (String × Nat)) (t : String)
    (h : (m.map Prod.fst).Nodup) : ((bumpTag m t).map Prod.fst).Nodup := by
  rw [bumpTag_keys]
  by_cases hmem : t ∈ m.map Prod.fst
  · rw [if_pos hmem]; exact h
  · rw [if_neg hmem]
    rw [List.nodup_append]
    exact ⟨h, List.nodup_singleton t,
      fun a ha hb => hmem ((List.mem_singleton.mp hb) ▸ ha)⟩

theorem foldl_bumpTag_keys_nodup (ts : List String) :
    ∀ m, (m.map Prod.fst).Nodup → ((ts.foldl bumpTag m).map Prod.fst).Nodup := by
  induction ts with
  | nil => intro m h; exact h
  | cons t ts' ih => intro m h; exact ih _ (bumpTag_keys_nodup m t h)

theorem tagCounts_keys_nodup (col : List String) :
    ((tagCounts col).map Prod.fst).Nodup := by
  rw [tagCounts]
  have : ∀ m, (m.map Prod.fst).Nodup →
      ((col.foldl (fun m s => (splitTags s).foldl bumpTag m) m).map Prod.fst).Nodup := by
    induction col with
    | nil => intro m h; exact h
    | cons s col' ih => intro m h; exact ih _ (foldl_bumpTag_keys_nodup _ m h)
  exact this [] (by simp)

theorem lookup_eq_some_of_nodup (m : List (String × Nat))
    (h : (m.map Prod.fst).Nodup) (x : String) (n : Nat) :
    (x, n) ∈ m ↔ m.lookup x = some n := by
  induction m with
  | nil => simp [List.lookup]
  | cons kv rest ih =>
    obtain ⟨k, v⟩ := kv
    rw [List.map_cons, List.nodup_cons] at h
    by_cases hx : x = k
    · subst hx
      simp only [List.lookup, beq_self_eq_true, List.mem_cons]
      constructor
      · rintro (he | hmem)
        · rw [Prod.mk.injEq] at he
          rw [he.2]
        · exact absurd (List.mem_map.mpr ⟨(x, n), hmem, rfl⟩) h.1
      · intro hl
        left
        rw [Option.some.injEq] at hl
        rw [hl]
    · simp only [List.lookup, beq_eq_false_iff_ne.mpr hx, List.mem_cons]
      rw [← ih h.2]
      constructor
      · rintro (he | hmem)
        · rw [Prod.mk.injEq] at he
          exact absurd he.1 hx
        · exact hmem
      · intro hmem
        exact Or.inr hmem

theorem lookup_foldl_bumpTag (ts : List String) :
    ∀ (m : List (String × Nat)) (x : String),
      (ts.foldl bumpTag m).lookup x =
        if x ∈ ts then some ((m.lookup x).getD 0 + ts.count x) else m.lookup x := by
  induction ts with
  | nil => intro m x; simp
  | cons t ts' ih =>
    intro m x
    rw [List.foldl_cons, ih]
    by_cases hx : x = t
    · subst hx
      rw [lookup_bumpTag, if_pos rfl]
      by_cases hmem : x ∈ ts'
      · simp [hmem, List.count_cons, Nat.add_assoc, Nat.add_comm, Nat.add_left_comm]
      · simp [hmem, List.count_cons, List.count_eq_zero_of_not_mem hmem]
    · rw [lookup_bumpTag, if_neg hx]
      by_cases hmem : x ∈ ts'
      · simp [hmem, hx, List.count_cons, beq_eq_false_iff_ne.mpr hx]
      · simp [hmem, hx]

theorem lookup_tagCounts_from (col : List String) :
    ∀ (m : List (String × Nat)) (x : String),
      (col.foldl (fun m s => (splitTags s).foldl bumpTag m) m).lookup x =
        if (col.map (fun s => (splitTags s).count x)).sum = 0 then m.lookup x
        else some ((m.lookup x).getD 0 +
          (col.map (fun s => (splitTags s).count x)).sum) := by
  induction col with
  | nil => intro m x; simp
  | cons s col' ih =>
    intro m x
    rw [List.foldl_cons, ih, lookup_foldl_bumpTag]
    by_cases hmem : x ∈ splitTags s
    · have hc : (splitTags s).count x ≠ 0 := by
        intro h0
        exact (List.count_eq_zero.mp h0) hmem
      by_cases hrest : (col'.map (fun s => (splitTags s).count x)).sum = 0
      · simp [hmem, hrest, hc]
      · have htot : (splitTags s).count x +
            (col'.map (fun s => (splitTags s).count x)).sum ≠ 0 := by omega
        simp [hmem, hrest, htot, Nat.add_assoc]
    · have hc : (splitTags s).count x = 0 := List.count_eq_zero_of_not_mem hmem
      simp [hmem, hc]

theorem lookup_tagCounts (col : List String) (x : String) :
    (tagCounts col).lookup x =
      if occCount x col = 0 then none else some (occCount x col) := by
  rw [tagCounts, lookup_tagCounts_from, occCount]
  simp [List.lookup]

theorem mem_tagCounts (col : List String) (lab : String) (n : Nat) :
    (lab, n) ∈ tagCounts col ↔ (n = occCount lab col ∧ 1 ≤ n) := by
  rw [lookup_eq_some_of_nodup _ (tagCounts_keys_nodup col), lookup_tagCounts]
  by_cases h : occCount lab col = 0
  · simp [h]
  · simp [h]
    omega

theorem insertByCount_perm (x : String × Nat) (l : List (String × Nat)) :
    (insertByCount x l).Perm (x :: l) := by
  induction l with
  | nil => exact List.Perm.refl _
  | cons y rest ih =>
    rw [insertByCount]
    by_cases h : y.2 ≤ x.2
    · rw [if_pos h]
    · rw [if_neg h]
      exact (ih.cons y).trans (List.Perm.swap x y rest)

theorem sortByCountDesc_perm (l : List (String × Nat)) :
    (sortByCountDesc l).Perm l := by
  induction l with
  | nil => exact List.Perm.refl _
  | cons x rest ih =>
    rw [sortByCountDesc]
    exact (insertByCount_perm x _).trans (ih.cons x)

theorem pairwise_sublist_pairs (L : List (String × Nat)) :
    L.Pairwise (fun a b => [a, b].Sublist L) := by
  induction L with
  | nil => exact List.Pairwise.nil
  | cons x t ih =>
    refine List.Pairwise.cons ?_ (ih.imp ?_)
    · intro b hb
      exact List.Sublist.cons₂ x (List.singleton_sublist.mpr hb)
    · intro a b hab
      exact hab.cons x

theorem insertByCount_pairwise (prec : (String × Nat) → (String × Nat) → Prop)
    (x : String × Nat) (l : List (String × Nat))
    (hl : l.Pairwise (fun a b => b.2 < a.2 ∨ (a.2 = b.2 ∧ prec a b)))
    (hx : ∀ y ∈ l, prec x y) :
    (insertByCount x l).Pairwise
      (fun a b => b.2 < a.2 ∨ (a.2 = b.2 ∧ prec a b)) := by
  induction l with
  | nil => simp [insertByCount]
  | cons y t ih =>
    rw [insertByCount]
    by_cases h : y.2 ≤ x.2
    · rw [if_pos h]
      refine List.Pairwise.cons ?_ hl
      intro z hz
      rcases List.mem_cons.mp hz with he | hz'
      · subst he
        rcases Nat.lt_or_ge z.2 x.2 with hlt | hge
        · exact Or.inl hlt
        · exact Or.inr ⟨Nat.le_antisymm hge h, hx z (List.mem_cons_self _ _)⟩
      · have hSyz := (List.pairwise_cons.mp hl).1 z hz'
        have hz2 : z.2 ≤ y.2 := by
          rcases hSyz with h' | h' <;> omega
        rcases Nat.lt_or_ge z.2 x.2 with hlt | hge
        · exact Or.inl hlt
        · exact Or.inr ⟨by omega, hx z (List.mem_cons_of_mem _ hz')⟩
    · rw [if_neg h]
      refine List.Pairwise.cons ?_
        (ih (List.Pairwise.of_cons hl) (fun z hz => hx z (List.mem_cons_of_mem _ hz)))
      intro z hz
      have hmemz : z = x ∨ z ∈ t := by
        have := (insertByCount_perm x t).mem_iff.mp hz
        simpa using this
      rcases hmemz with he | hz'
      · subst he
        left
        omega
      · exact (List.pairwise_cons.mp hl).1 z hz'

theorem sortByCountDesc_pairwise (prec : (String × Nat) → (String × Nat) → Prop)
    (l : List (String × Nat)) (hl : l.Pairwise prec) :
    (sortByCountDesc l).Pairwise
      (fun a b => b.2 < a.2 ∨ (a.2 = b.2 ∧ prec a b)) := by
  induction l with
  | nil => exact List.Pairwise.nil
  | cons x t ih =>
    rw [sortByCountDesc]
    refine insertByCount_pairwise prec x _ (ih (List.Pairwise.of_cons hl)) ?_
    intro y hy
    exact (List.pairwise_cons.mp hl).1 y ((sortByCountDesc_perm t).mem_iff.mp hy)

/-- C8: `get_tag_statistics` (i) associates to each label exactly its number
of occurrences across the batch's tag lists (a label appears iff it occurs
at least once), (ii) returns entries sorted by descending count, (iii)
breaks ties stably: tied entries keep their first-encounter order (their
order in the insertion-ordered count dict), and (iv) on the spec's example
batch `["ML"], ["ML","DS"], ["DS"]` yields `{"ML": 2, "DS": 2}` with "ML"
first. -/
theorem C8_tag_statistics :
    (∀ (col : List String) (lab : String) (n : Nat),
        (lab, n) ∈ get_tag_statistics col ↔ (n = occCount lab col ∧ 1 ≤ n))
  ∧ (∀ col : List String,
        (get_tag_statistics col).Pairwise (fun a b => b.2 ≤ a.2))
  ∧ (∀ col : List String,
        (get_tag_statistics col).Pairwise (fun a b =>
          b.2 < a.2 ∨ (a.2 = b.2 ∧ [a, b].Sublist (tagCounts col))))
  ∧ get_tag_statistics ["ML", "ML, DS", "DS"] = [("ML", 2), ("DS", 2)] := by
  have hstab : ∀ col : List String,
      (get_tag_statistics col).Pairwise (fun a b =>
        b.2 < a.2 ∨ (a.2 = b.2 ∧ [a, b].Sublist (tagCounts col))) := by
    intro col
    exact sortByCountDesc_pairwise _ _ (pairwise_sublist_pairs _)
  refine ⟨?_, ?_, hstab, by decide⟩
  · intro col lab n
    rw [show get_tag_statistics col = sortByCountDesc (tagCounts col) from rfl,
      (sortByCountDesc_perm (tagCounts col)).mem_iff]
    exact mem_tagCounts col lab n
  · intro col
    refine (hstab col).imp ?_
    intro a b hab
    rcases hab with h | h
    · omega
    · omega

/-- C8 witness: the statistics properties evaluated on the spec's example
batch. -/
theorem C8_tag_statistics_witness :
    ((("ML" : String), (2 : Nat)) ∈ get_tag_statistics ["ML", "ML, DS", "DS"] ↔
      (2 = occCount "ML" ["ML", "ML, DS", "DS"] ∧ 1 ≤ 2))
  ∧ (get_tag_statistics ["ML", "ML, DS", "DS"]).Pairwise (fun a b => b.2 ≤ a.2) :=
  ⟨C8_tag_statistics.1 ["ML", "ML, DS", "DS"] "ML" 2,
   C8_tag_statistics.2.1 ["ML", "ML, DS", "DS"]⟩

/-! ## Email digest (`src/email_service.py`)

The SMTP stack and `datetime.now()` are outside the repository, so they are
abstracted as parameters: `smtp email password message` stands for the whole
`SMTP("smtp.gmail.com", 587); starttls(); login(...); send_message(...);
quit()` sequence and reports which exception class, if any, it raised. -/

/-- Outcome of the SMTP conversation, by the exception classes the source
distinguishes: success, `smtplib.SMTPAuthenticationError`, another
`smtplib.SMTPException`, or any other exception (caught only by the outer
handler). -/
inductive SmtpOutcome where
  | ok
  | authError (msg : String)
  | smtpError (msg : String)
  | otherError (msg : String)
deriving DecidableEq, Repr

/-- The two environment variables read by `send_job_digest_email`
(`none` models a missing variable; the empty string is likewise falsy in the
source's check). -/
structure EmailEnv where
  gmailEmail : Option String
  gmailPassword : Option String

/-- The fixed head/style block and digest header of `generate_email_html`,
with the record count and the current date interpolated (`datetime.now()`
abstracted as `today`). -/
def emailHeader (count : Nat) (today : String) : String :=
  "\n    <html>\n    <head>\n        <style>\n            body \x7b font-family: Arial, sans-serif; margin: 20px; \x7d\n            .header \x7b background-color: #FF4B4B; color: white; padding: 20px; text-align: center; \x7d\n            .job-card \x7b border: 1px solid #ddd; margin: 10px 0; padding: 15px; border-radius: 5px; \x7d\n            .job-title \x7b font-weight: bold; font-size: 18px; color: #333; \x7d\n            .company \x7b color: #666; margin: 5px 0; \x7d\n            .location \x7b color: #888; font-style: italic; \x7d\n            .apply-btn \x7b \n                background-color: #FF4B4B; \n                color: white; \n                padding: 10px 20px; \n                text-decoration: none; \n                border-radius: 5px; \n                display: inline-block; \n                margin-top: 10px; \n            \x7d\n            .footer \x7b text-align: center; margin-top: 30px; color: #666; \x7d\n        </style>\n    </head>\n    <body>\n        <div class=\"header\">\n            <h1>Your Daily Job Digest</h1>\n            <p>Found " ++ toString count ++ " new opportunities matching your preferences</p>\n            <p>" ++ today ++ "</p>\n        </div>\n    "

/-- One job card of the digest loop body, field for field: title, company,
location, a remote badge when the location contains the literal "Remote"
(case-sensitively, as in the source), the description truncated to 200
characters when non-empty, and the apply link. -/
def jobCardHtml (job : JobRecord) : String :=
  "\n        <div class=\"job-card\">\n            <div class=\"job-title\">" ++
    job.title ++
  "</div>\n            <div class=\"company\">🏢 " ++ job.company ++
  "</div>\n            <div class=\"location\">📍 " ++ job.location ++
  "</div>\n            " ++
  (if containsCS job.location "Remote" then
      "<div style=\"color: #28a745;\">🏠 Remote Position</div>"
    else "") ++
  "\n            " ++
  (if job.description != "" then
      "<div style=\"color: #666; margin: 10px 0;\">" ++
        (⟨job.description.toList.take 200⟩ : String) ++ "...</div>"
    else "") ++
  "\n            <a href=\"" ++ job.applyLink ++
  "\" class=\"apply-btn\">Apply Now</a>\n        </div>\n        "

/-- The closing footer of the digest HTML. -/
def emailFooter : String :=
  "\n        <div class=\"footer\">\n            <p>This digest was generated by AI/CS Entry-Level & Internship Finder</p>\n            <p>To modify your preferences or unsubscribe, visit the application.</p>\n        </div>\n    </body>\n    </html>\n    "

/-- `generate_email_html` from `src/email_service.py`: header with the full
batch count, then one card per record of `jobs_df.head(10)` — only the first
10 records are embedded — then the footer.  The `preferences` argument is
accepted and unused, exactly as in the source. -/
def generate_email_html (today : String) (jobs : List JobRecord)
    (preferences : List (String × String)) : String :=
  emailHeader jobs.length today ++
    String.join ((jobs.take 10).map jobCardHtml) ++ emailFooter

/-- `send_job_digest_email` from `src/email_service.py`.  A missing or empty
credential raises inside the outer `try`, whose handler returns
`(False, "Failed to send email: " + str(e))`; the SMTP call's exceptions are
mapped to the three handled cases.  The function always returns a
`(success, message)` pair — every exception path is converted into a
`False` result. -/
def send_job_digest_email (env : EmailEnv)
    (smtp : String → String → String → SmtpOutcome)
    (today : String) (userEmail : String) (jobs : List JobRecord)
    (preferences : List (String × String)) : Bool × String :=
  match env.gmailEmail with
  | none =>
    (false, "Failed to send email: GMAIL_EMAIL environment variable not found or empty")
  | some gmailEmail =>
    if gmailEmail = "" then
      (false, "Failed to send email: GMAIL_EMAIL environment variable not found or empty")
    else
      match env.gmailPassword with
      | none =>
        (false, "Failed to send email: GMAIL_APP_PASSWORD environment variable not found or empty")
      | some gmailPassword =>
        if gmailPassword = "" then
          (false, "Failed to send email: GMAIL_APP_PASSWORD environment variable not found or empty")
        else
          match smtp gmailEmail gmailPassword
              (generate_email_html today jobs preferences) with
          | .ok => (true, "Email sent successfully")
          | .authError m =>
            (false, "SMTP Authentication failed: " ++ m ++
              ". Check if 2-Step Verification is enabled and App Password is correct.")
          | .smtpError m => (false, "SMTP error: " ++ m)
          | .otherError m => (false, "Failed to send email: " ++ m)

/-- C9: the digest HTML is determined by the batch length and its first 10
records (records beyond the tenth are never embedded), and the sender always
returns a `(success, message)` pair — every abstracted failure mode yields a
`false` result rather than an exception, and it succeeds exactly when both
credentials are present and non-empty and the SMTP conversation succeeds. -/
theorem C9_email_digest :
    (∀ (today : String) (l1 l2 : List JobRecord) (prefs : List (String × String)),
        l1.take 10 = l2.take 10 → l1.length = l2.length →
        generate_email_html today l1 prefs = generate_email_html today l2 prefs)
  ∧ (∀ (env : EmailEnv) (smtp : String → String → String → SmtpOutcome)
        (today u : String) (jobs : List JobRecord) (prefs : List (String × String)),
        send_job_digest_email env smtp today u jobs prefs =
          (true, "Email sent successfully") ∨
        (send_job_digest_email env smtp today u jobs prefs).1 = false)
  ∧ (∀ (env : EmailEnv) (smtp : String → String → String → SmtpOutcome)
        (today u : String) (jobs : List JobRecord) (prefs : List (String × String)),
        (send_job_digest_email env smtp today u jobs prefs).1 = true ↔
          (∃ ge gp, env.gmailEmail = some ge ∧ ge ≠ "" ∧
            env.gmailPassword = some gp ∧ gp ≠ "" ∧
            smtp ge gp (generate_email_html today jobs prefs) = SmtpOutcome.ok)) := by
  refine ⟨?_, ?_, ?_⟩
  · intro today l1 l2 prefs htake hlen
    rw [generate_email_html, generate_email_html, htake, hlen]
  · intro env smtp today u jobs prefs
    cases hA : env.gmailEmail with
    | none => simp [send_job_digest_email, hA]
    | some ge =>
      by_cases hge : ge = ""
      · simp [send_job_digest_email, hA, hge]
      · cases hB : env.gmailPassword with
        | none => simp [send_job_digest_email, hA, hB, hge]
        | some gp =>
          by_cases hgp : gp = ""
          · simp [send_job_digest_email, hA, hB, hge, hgp]
          · cases hs : smtp ge gp (generate_email_html today jobs prefs) with
            | ok => simp [send_job_digest_email, hA, hB, hge, hgp, hs]
            | authError m => simp [send_job_digest_email, hA, hB, hge, hgp, hs]
            | smtpError m => simp [send_job_digest_email, hA, hB, hge, hgp, hs]
            | otherError m => simp [send_job_digest_email, hA, hB, hge, hgp, hs]
  · intro env smtp today u jobs prefs
    cases hA : env.gmailEmail with
    | none => simp [send_job_digest_email, hA]
    | some ge =>
      by_cases hge : ge = ""
      · simp [send_job_digest_email, hA, hge]
      · cases hB : env.gmailPassword with
        | none => simp [send_job_digest_email, hA, hB, hge]
        | some gp =>
          by_cases hgp : gp = ""
          · simp [send_job_digest_email, hA, hB, hge, hgp]
          · cases hs : smtp ge gp (generate_email_html today jobs prefs) with
            | ok => simp [send_job_digest_email, hA, hB, hge, hgp, hs]
            | authError m => simp [send_job_digest_email, hA, hB, hge, hgp, hs]
            | smtpError m => simp [send_job_digest_email, hA, hB, hge, hgp, hs]
            | otherError m => simp [send_job_digest_email, hA, hB, hge, hgp, hs]

/-- C9 witness: two 11-record batches agreeing on their first 10 records
produce the same digest HTML, and a fully-configured sender with a
successful SMTP conversation reports success. -/
theorem C9_email_digest_witness :
    generate_email_html "January 01, 2025" (List.replicate 10 recWFH ++ [recWFH]) [] =
      generate_email_html "January 01, 2025"
        (List.replicate 10 recWFH ++ [recTypeRemote]) []
  ∧ (send_job_digest_email ⟨some "user@example.com", some "secret"⟩
      (fun _ _ _ => SmtpOutcome.ok) "January 01, 2025" "to@example.com" [] []).1
      = true :=
  ⟨C9_email_digest.1 "January 01, 2025" _ _ [] (by decide) (by decide),
   (C9_email_digest.2.2 ⟨some "user@example.com", some "secret"⟩
      (fun _ _ _ => SmtpOutcome.ok) "January 01, 2025" "to@example.com" [] []).mpr
    ⟨"user@example.com", "secret", rfl, by decide, rfl, by decide, rfl⟩⟩

/-- C10 witness: the sanitizer guarantees evaluated at a concrete filename
containing invalid characters. -/
theorem C10_sanitize_filename_witness :
    sanitize_filename "jobs<data>: 2025/01?" ≠ ""
  ∧ (sanitize_filename "jobs<data>: 2025/01?").toList.all
      (fun c => !invalidFileChar c) = true
  ∧ noDoubleRep isUnd (sanitize_filename "jobs<data>: 2025/01?").toList = true
  ∧ boundaryFree isUnd (sanitize_filename "jobs<data>: 2025/01?").toList = true :=
  C10_sanitize_filename "jobs<data>: 2025/01?"

/-- C7 witness: the partition property evaluated on a concrete batch. -/
theorem C7_remote_onsite_partition_witness :
    (recWFH ∈ [recWFH, recTypeRemote] ↔
      (recWFH ∈ filter_remote_jobs [recWFH, recTypeRemote] ∨
       recWFH ∈ filter_onsite_jobs [recWFH, recTypeRemote]))
  ∧ ¬(recWFH ∈ filter_remote_jobs [recWFH, recTypeRemote] ∧
      recWFH ∈ filter_onsite_jobs [recWFH, recTypeRemote])
  ∧ (filter_remote_jobs [recWFH, recTypeRemote]).count recWFH +
      (filter_onsite_jobs [recWFH, recTypeRemote]).count recWFH =
      [recWFH, recTypeRemote].count recWFH :=
  C7_remote_onsite_partition [recWFH, recTypeRemote] recWFH
